import Mathlib

/-!
Verification of the JK-BUS frame decoder (`scripts/jkbus_monitor.py`).

The byte-level protocol helpers (`crc16_modbus`, `verify_crc`,
`get_int16_signed`), the frame decoders (`decode_telemetry`,
`decode_status`), the frame splitter inside `capture_frames`, and the
per-kind selection loops of `main` are embedded shallowly: byte buffers
are `List Nat` (each element intended `< 256`), Python's fallible
indexing is `Option` / `Except`, and the `/10` scaling is exact rational
arithmetic.
-/

namespace JkBus

/-- Frame delimiter byte `0x7E`. -/
def delimiter : Nat := 0x7E

/-- One inner iteration of the CRC loop:
`crc = (crc >> 1) ^ 0xA001 if (crc & 1) else (crc >> 1)`. -/
def crc16_round (crc : Nat) : Nat :=
  if crc &&& 1 = 1 then (crc >>> 1) ^^^ 0xA001 else crc >>> 1

/-- Embedding of `crc16_modbus(data)`: the register starts at `0xFFFF`; each byte is
XORed in and followed by 8 rounds; the result is masked to 16 bits. -/
def crc16_modbus (data : List Nat) : Nat :=
  (data.foldl (fun crc b => crc16_round^[8] (crc ^^^ b)) 0xFFFF) &&& 0xFFFF

/-- Embedding of `int.from_bytes(bs, "little")`. -/
def from_bytes_le (l : List Nat) : Nat :=
  l.foldr (fun b acc => b + 256 * acc) 0

/-- Embedding of `verify_crc(frame)`: reject frames shorter than 4 bytes, otherwise
compare the CRC of `frame[1:-2]` with the little-endian value of
`frame[-2:]`. -/
def verify_crc (frame : List Nat) : Bool :=
  if frame.length < 4 then false
  else crc16_modbus ((frame.drop 1).dropLast.dropLast)
        == from_bytes_le (frame.drop (frame.length - 2))

/-- Little-endian 16-bit encoding of a checksum value (`le16` in the
spec's CRC property; `value.to_bytes(2, "little")` in Python terms). -/
def le16 (c : Nat) : List Nat := [c % 256, c / 256 % 256]

theorem crc16_modbus_lt (data : List Nat) : crc16_modbus data < 65536 :=
  Nat.lt_succ_of_le Nat.and_le_right

theorem from_bytes_le_le16 (c : Nat) (hc : c < 65536) :
    from_bytes_le (le16 c) = c := by
  have h : c / 256 < 256 := by omega
  simp [from_bytes_le, le16, Nat.mod_eq_of_lt h]
  omega

/-- C5 (counterexample): the empty payload defeats the round-trip
property: the resulting frame has length 3 and is rejected by the
length guard of `verify_crc` before the checksum comparison. -/
theorem crc_roundtrip_counterexample :
    verify_crc (delimiter :: ([] : List Nat) ++ le16 (crc16_modbus [])) = false := by
  decide

/-- C5 (amended): for every nonempty byte sequence `p`, a frame
built as the delimiter byte, then `p`, then the little-endian 16-bit
encoding of `crc16_modbus p`, passes `verify_crc`. -/
theorem crc_roundtrip (p : List Nat) (hp : p ≠ []) :
    verify_crc (delimiter :: p ++ le16 (crc16_modbus p)) = true := by
  have hlen : (delimiter :: p ++ le16 (crc16_modbus p)).length = p.length + 3 := by
    simp [le16]
  have hpos : 0 < p.length := List.length_pos.mpr hp
  unfold verify_crc
  rw [hlen]
  have hguard : ¬(p.length + 3 < 4) := by omega
  rw [if_neg hguard]
  have hdrop1 : (delimiter :: p ++ le16 (crc16_modbus p)).drop 1
      = p ++ le16 (crc16_modbus p) := rfl
  have hpayload : (p ++ le16 (crc16_modbus p)).dropLast.dropLast = p := by
    have : p ++ le16 (crc16_modbus p)
        = (p ++ [crc16_modbus p % 256]) ++ [crc16_modbus p / 256 % 256] := by
      simp [le16]
    rw [this, List.dropLast_concat, List.dropLast_concat]
  have htail : (delimiter :: p ++ le16 (crc16_modbus p)).drop (p.length + 3 - 2)
      = le16 (crc16_modbus p) := by
    have h1 : p.length + 3 - 2 = 1 + p.length := by omega
    rw [h1]
    have : (delimiter :: p ++ le16 (crc16_modbus p)).drop (1 + p.length)
        = (p ++ le16 (crc16_modbus p)).drop p.length := by
      rw [Nat.add_comm]
      rfl
    rw [this, List.drop_left]
  rw [hdrop1, hpayload, htail, from_bytes_le_le16 _ (crc16_modbus_lt p)]
  exact beq_self_eq_true _

/-- C5 (witness): round-trip at the concrete payload `[1, 2, 3]`. -/
theorem crc_roundtrip_witness :
    verify_crc (delimiter :: [1, 2, 3] ++ le16 (crc16_modbus [1, 2, 3])) = true :=
  crc_roundtrip [1, 2, 3] (by decide)

/-- Embedding of `get_int16_signed(data, pos)`: big-endian 16-bit read
`(data[pos] << 8) | data[pos + 1]` with two's-complement recovery for
values above `32767`; `none` models Python's `IndexError`. -/
def get_int16_signed (data : List Nat) (pos : Nat) : Option Int :=
  match data[pos]?, data[pos + 1]? with
  | some hi, some lo =>
    let val : Nat := (hi <<< 8) ||| lo
    some (if 32767 < val then (val : Int) - 65536 else (val : Int))
  | _, _ => none

/-- The six fields of `decode_telemetry`, in source order, as exact
rationals (`raw / 10`). -/
structure TelemetryReading where
  outdoor_ambient_c : ℚ
  suction_temp_c : ℚ
  defrost_coil_temp_c : ℚ
  exhaust_temp_c : ℚ
  heating_water_setpoint_c : ℚ
  liquid_tube_temp_c : ℚ
deriving DecidableEq

/-- The three fields of `decode_status`, in source order. -/
structure StatusReading where
  return_water_temp_c : ℚ
  outlet_water_temp_c : ℚ
  dhw_setpoint_c : ℚ
deriving DecidableEq

/-- The fixed telemetry signature `b"\xf1\xf1\x12\x2f"` at `frame[1:5]`. -/
def telemetry_sig : List Nat := [0xf1, 0xf1, 0x12, 0x2f]

/-- The fixed status signature `b"\x00\xf1"` at `frame[1:3]`. -/
def status_sig : List Nat := [0x00, 0xf1]

/-- Embedding of `decode_telemetry(frame)`: here `Except.ok none` is Python's `return None`,
`Except.error ()` an uncaught `IndexError` from a byte access. -/
def decode_telemetry (frame : List Nat) : Except Unit (Option TelemetryReading) :=
  if frame.length < 47 ∨ (frame.drop 1).take 4 ≠ telemetry_sig then Except.ok none
  else
    match frame[9]?, frame[10]? with
    | some b9, some b10 =>
      if b9 = 0 ∧ b10 = 0 then Except.ok none
      else
        match get_int16_signed frame 9, get_int16_signed frame 11,
              get_int16_signed frame 15, get_int16_signed frame 25,
              get_int16_signed frame 31, get_int16_signed frame 41 with
        | some v1, some v2, some v3, some v4, some v5, some v6 =>
          Except.ok (some ⟨(v1 : ℚ) / 10, (v2 : ℚ) / 10, (v3 : ℚ) / 10,
                           (v4 : ℚ) / 10, (v5 : ℚ) / 10, (v6 : ℚ) / 10⟩)
        | _, _, _, _, _, _ => Except.error ()
    | _, _ => Except.error ()

/-- Embedding of `decode_status(frame)`. -/
def decode_status (frame : List Nat) : Except Unit (Option StatusReading) :=
  if frame.length < 51 ∨ (frame.drop 1).take 2 ≠ status_sig then Except.ok none
  else
    match get_int16_signed frame 33, get_int16_signed frame 35,
          get_int16_signed frame 37 with
    | some v1, some v2, some v3 =>
      Except.ok (some ⟨(v1 : ℚ) / 10, (v2 : ℚ) / 10, (v3 : ℚ) / 10⟩)
    | _, _, _ => Except.error ()

/-- Spec-side description of a field (refinement target): "the signed
16-bit big-endian integer read at byte offset `pos`", with
two's-complement recovery of values above `32767`. -/
def beSigned16 (frame : List Nat) (pos : Nat) : Int :=
  let raw := frame.getD pos 0 * 256 + frame.getD (pos + 1) 0
  if 32767 < raw then (raw : Int) - 65536 else (raw : Int)

theorem getElem?_eq_some_getD {l : List Nat} {i : Nat} (h : i < l.length) :
    l[i]? = some (l.getD i 0) := by
  simp [List.getD_eq_getElem?_getD, List.getElem?_eq_getElem h]

theorem getD_mem {l : List Nat} {i : Nat} (h : i < l.length) : l.getD i 0 ∈ l := by
  rw [List.getD_eq_getElem?_getD, List.getElem?_eq_getElem h]
  exact List.getElem_mem h

theorem shiftLeft8_or_eq (hi lo : Nat) (hlo : lo < 256) :
    (hi <<< 8) ||| lo = hi * 256 + lo := by
  rw [Nat.shiftLeft_eq]
  have h256 : (2 : Nat) ^ 8 = 256 := by norm_num
  have h : 2 ^ 8 * hi + lo = 2 ^ 8 * hi ||| lo :=
    Nat.mul_add_lt_is_or (by omega) hi
  rw [Nat.mul_comm hi (2 ^ 8), ← h, h256, Nat.mul_comm]

theorem get_int16_signed_eq (frame : List Nat) (pos : Nat)
    (h : pos + 1 < frame.length) (hb : ∀ b ∈ frame, b < 256) :
    get_int16_signed frame pos = some (beSigned16 frame pos) := by
  have hlo : frame.getD (pos + 1) 0 < 256 := hb _ (getD_mem h)
  unfold get_int16_signed
  rw [getElem?_eq_some_getD (by omega), getElem?_eq_some_getD h]
  simp only [beSigned16, shiftLeft8_or_eq _ _ hlo]

theorem get_int16_signed_isSome (frame : List Nat) (pos : Nat)
    (h : pos + 1 < frame.length) :
    ∃ v, get_int16_signed frame pos = some v := by
  unfold get_int16_signed
  rw [getElem?_eq_some_getD (by omega), getElem?_eq_some_getD h]
  exact ⟨_, rfl⟩

theorem decode_telemetry_ok (frame : List Nat) (hb : ∀ b ∈ frame, b < 256)
    (hlen : 47 ≤ frame.length) (hsig : (frame.drop 1).take 4 = telemetry_sig)
    (hsb : ¬(frame.getD 9 0 = 0 ∧ frame.getD 10 0 = 0)) :
    decode_telemetry frame = Except.ok (some
      ⟨(beSigned16 frame 9 : ℚ) / 10, (beSigned16 frame 11 : ℚ) / 10,
       (beSigned16 frame 15 : ℚ) / 10, (beSigned16 frame 25 : ℚ) / 10,
       (beSigned16 frame 31 : ℚ) / 10, (beSigned16 frame 41 : ℚ) / 10⟩) := by
  unfold decode_telemetry
  rw [if_neg (by push_neg; exact ⟨by omega, hsig⟩)]
  rw [getElem?_eq_some_getD (show 9 < frame.length by omega),
      getElem?_eq_some_getD (show 10 < frame.length by omega),
      get_int16_signed_eq frame 9 (by omega) hb,
      get_int16_signed_eq frame 11 (by omega) hb,
      get_int16_signed_eq frame 15 (by omega) hb,
      get_int16_signed_eq frame 25 (by omega) hb,
      get_int16_signed_eq frame 31 (by omega) hb,
      get_int16_signed_eq frame 41 (by omega) hb]
  simp only [if_neg hsb]

theorem decode_telemetry_none (frame : List Nat)
    (h : ¬(47 ≤ frame.length ∧ (frame.drop 1).take 4 = telemetry_sig ∧
           ¬(frame.getD 9 0 = 0 ∧ frame.getD 10 0 = 0))) :
    decode_telemetry frame = Except.ok none := by
  unfold decode_telemetry
  by_cases hg : frame.length < 47 ∨ (frame.drop 1).take 4 ≠ telemetry_sig
  · rw [if_pos hg]
  · push_neg at hg
    obtain ⟨hlen, hsig⟩ := hg
    rw [if_neg (by push_neg; exact ⟨hlen, hsig⟩)]
    have hsb : frame.getD 9 0 = 0 ∧ frame.getD 10 0 = 0 := by
      by_contra hc
      exact h ⟨by omega, hsig, hc⟩
    rw [getElem?_eq_some_getD (show 9 < frame.length by omega),
        getElem?_eq_some_getD (show 10 < frame.length by omega)]
    simp only [if_pos hsb]

theorem decode_telemetry_total (frame : List Nat) :
    ∃ r, decode_telemetry frame = Except.ok r := by
  unfold decode_telemetry
  by_cases hg : frame.length < 47 ∨ (frame.drop 1).take 4 ≠ telemetry_sig
  · exact ⟨none, by rw [if_pos hg]⟩
  · push_neg at hg
    obtain ⟨hlen, hsig⟩ := hg
    rw [if_neg (by push_neg; exact ⟨hlen, hsig⟩)]
    obtain ⟨v1, hv1⟩ := get_int16_signed_isSome frame 9 (by omega)
    obtain ⟨v2, hv2⟩ := get_int16_signed_isSome frame 11 (by omega)
    obtain ⟨v3, hv3⟩ := get_int16_signed_isSome frame 15 (by omega)
    obtain ⟨v4, hv4⟩ := get_int16_signed_isSome frame 25 (by omega)
    obtain ⟨v5, hv5⟩ := get_int16_signed_isSome frame 31 (by omega)
    obtain ⟨v6, hv6⟩ := get_int16_signed_isSome frame 41 (by omega)
    rw [getElem?_eq_some_getD (show 9 < frame.length by omega),
        getElem?_eq_some_getD (show 10 < frame.length by omega),
        hv1, hv2, hv3, hv4, hv5, hv6]
    by_cases hsb : frame.getD 9 0 = 0 ∧ frame.getD 10 0 = 0
    · exact ⟨none, by simp only [if_pos hsb]⟩
    · refine ⟨some ⟨(v1 : ℚ) / 10, (v2 : ℚ) / 10, (v3 : ℚ) / 10,
                    (v4 : ℚ) / 10, (v5 : ℚ) / 10, (v6 : ℚ) / 10⟩, ?_⟩
      simp only [if_neg hsb]

theorem decode_status_ok (frame : List Nat) (hb : ∀ b ∈ frame, b < 256)
    (hlen : 51 ≤ frame.length) (hsig : (frame.drop 1).take 2 = status_sig) :
    decode_status frame = Except.ok (some
      ⟨(beSigned16 frame 33 : ℚ) / 10, (beSigned16 frame 35 : ℚ) / 10,
       (beSigned16 frame 37 : ℚ) / 10⟩) := by
  unfold decode_status
  rw [if_neg (by push_neg; exact ⟨by omega, hsig⟩)]
  rw [get_int16_signed_eq frame 33 (by omega) hb,
      get_int16_signed_eq frame 35 (by omega) hb,
      get_int16_signed_eq frame 37 (by omega) hb]

theorem decode_status_none (frame : List Nat)
    (h : ¬(51 ≤ frame.length ∧ (frame.drop 1).take 2 = status_sig)) :
    decode_status frame = Except.ok none := by
  unfold decode_status
  rw [if_pos]
  by_contra hg
  push_neg at hg
  exact h ⟨by omega, hg.2⟩

theorem decode_status_total (frame : List Nat) :
    ∃ r, decode_status frame = Except.ok r := by
  unfold decode_status
  by_cases hg : frame.length < 51 ∨ (frame.drop 1).take 2 ≠ status_sig
  · exact ⟨none, by rw [if_pos hg]⟩
  · push_neg at hg
    obtain ⟨hlen, hsig⟩ := hg
    rw [if_neg (by push_neg; exact ⟨hlen, hsig⟩)]
    obtain ⟨v1, hv1⟩ := get_int16_signed_isSome frame 33 (by omega)
    obtain ⟨v2, hv2⟩ := get_int16_signed_isSome frame 35 (by omega)
    obtain ⟨v3, hv3⟩ := get_int16_signed_isSome frame 37 (by omega)
    rw [hv1, hv2, hv3]
    exact ⟨_, rfl⟩

/-- A concrete telemetry frame: length 47, correct signature, byte 10
set to 100 so the standby exclusion does not fire. -/
def wtele : List Nat :=
  [126, 241, 241, 18, 47] ++ List.replicate 4 0 ++ [0, 100] ++ List.replicate 36 0

/-- A concrete status frame: length 51, correct signature, zero fields. -/
def wstat : List Nat := [126, 0, 241] ++ List.replicate 48 0

/-- C3: telemetry decoding succeeds exactly on frames of length at
least 47 with the fixed 4-byte signature at `frame[1:5]` whose bytes at
offsets 9 and 10 are not both zero; the reading is the six signed
big-endian 16-bit fields at offsets 9, 11, 15, 25, 31, 41 each divided
by 10, and a precondition failure yields `none`, never an error. -/
theorem decode_telemetry_spec (frame : List Nat) (hb : ∀ b ∈ frame, b < 256) :
    (47 ≤ frame.length ∧ (frame.drop 1).take 4 = telemetry_sig ∧
        ¬(frame.getD 9 0 = 0 ∧ frame.getD 10 0 = 0) →
      decode_telemetry frame = Except.ok (some
        ⟨(beSigned16 frame 9 : ℚ) / 10, (beSigned16 frame 11 : ℚ) / 10,
         (beSigned16 frame 15 : ℚ) / 10, (beSigned16 frame 25 : ℚ) / 10,
         (beSigned16 frame 31 : ℚ) / 10, (beSigned16 frame 41 : ℚ) / 10⟩)) ∧
    (¬(47 ≤ frame.length ∧ (frame.drop 1).take 4 = telemetry_sig ∧
        ¬(frame.getD 9 0 = 0 ∧ frame.getD 10 0 = 0)) →
      decode_telemetry frame = Except.ok none) ∧
    decode_telemetry frame ≠ Except.error () := by
  refine ⟨fun h => decode_telemetry_ok frame hb h.1 h.2.1 h.2.2,
          fun h => decode_telemetry_none frame h, ?_⟩
  obtain ⟨r, hr⟩ := decode_telemetry_total frame
  simp [hr]

/-- C3 (witness): the spec instantiated on a concrete decodable
frame and on the empty frame. -/
theorem decode_telemetry_spec_witness :
    decode_telemetry wtele = Except.ok (some
      ⟨(beSigned16 wtele 9 : ℚ) / 10, (beSigned16 wtele 11 : ℚ) / 10,
       (beSigned16 wtele 15 : ℚ) / 10, (beSigned16 wtele 25 : ℚ) / 10,
       (beSigned16 wtele 31 : ℚ) / 10, (beSigned16 wtele 41 : ℚ) / 10⟩) ∧
    decode_telemetry [] = Except.ok none :=
  ⟨(decode_telemetry_spec wtele (by decide)).1 ⟨by decide, by decide, by decide⟩,
   (decode_telemetry_spec [] (by decide)).2.1 (by decide)⟩

/-- C4: status decoding succeeds exactly on frames of length at
least 51 with the fixed 2-byte signature at `frame[1:3]`; the reading is
the three signed big-endian 16-bit fields at offsets 33, 35, 37 divided
by 10, with the same sign-recovery rule; failure yields `none`, never an
error. -/
theorem decode_status_spec (frame : List Nat) (hb : ∀ b ∈ frame, b < 256) :
    (51 ≤ frame.length ∧ (frame.drop 1).take 2 = status_sig →
      decode_status frame = Except.ok (some
        ⟨(beSigned16 frame 33 : ℚ) / 10, (beSigned16 frame 35 : ℚ) / 10,
         (beSigned16 frame 37 : ℚ) / 10⟩)) ∧
    (¬(51 ≤ frame.length ∧ (frame.drop 1).take 2 = status_sig) →
      decode_status frame = Except.ok none) ∧
    decode_status frame ≠ Except.error () := by
  refine ⟨fun h => decode_status_ok frame hb h.1 h.2,
          fun h => decode_status_none frame h, ?_⟩
  obtain ⟨r, hr⟩ := decode_status_total frame
  simp [hr]

/-- C4 (witness): the spec instantiated on a concrete status frame
and on the empty frame. -/
theorem decode_status_spec_witness :
    decode_status wstat = Except.ok (some
      ⟨(beSigned16 wstat 33 : ℚ) / 10, (beSigned16 wstat 35 : ℚ) / 10,
       (beSigned16 wstat 37 : ℚ) / 10⟩) ∧
    decode_status [] = Except.ok none :=
  ⟨(decode_status_spec wstat (by decide)).1 ⟨by decide, by decide⟩,
   (decode_status_spec [] (by decide)).2.1 (by decide)⟩

/-- C7: the signed field extraction maps a raw big-endian value
above 32767 to that value minus 65536; raw `0x8000` scales to `-3276.8`
and raw `0x0001` to `0.1`. -/
theorem get_int16_signed_spec :
    (∀ (frame : List Nat) (pos : Nat), pos + 1 < frame.length →
      (∀ b ∈ frame, b < 256) →
      32767 < frame.getD pos 0 * 256 + frame.getD (pos + 1) 0 →
      get_int16_signed frame pos =
        some ((frame.getD pos 0 * 256 + frame.getD (pos + 1) 0 : Int) - 65536)) ∧
    (get_int16_signed [0x80, 0x00] 0).map (fun v : Int => (v : ℚ) / 10)
      = some (-3276.8) ∧
    (get_int16_signed [0x00, 0x01] 0).map (fun v : Int => (v : ℚ) / 10)
      = some (0.1) := by
  refine ⟨fun frame pos h hb hraw => ?_, ?_, ?_⟩
  case refine_2 =>
    have h : get_int16_signed [0x80, 0x00] 0 = some (-32768) := by decide
    rw [h]
    norm_num [Option.map]
  case refine_3 =>
    have h : get_int16_signed [0x00, 0x01] 0 = some 1 := by decide
    rw [h]
    norm_num [Option.map]
  rw [get_int16_signed_eq frame pos h hb]
  simp only [beSigned16, if_pos hraw]
  push_cast
  ring_nf

/-- C7 (witness): the wraparound rule at the concrete bytes
`[0x80, 0x00]`. -/
theorem get_int16_signed_spec_witness :
    get_int16_signed [0x80, 0x00] 0 =
      some ((([0x80, 0x00] : List Nat).getD 0 0 * 256
              + ([0x80, 0x00] : List Nat).getD 1 0 : Int) - 65536) :=
  get_int16_signed_spec.1 [0x80, 0x00] 0 (by decide) (by decide) (by decide)

/-- C10: under the length preconditions every byte access of the
decoders is in bounds: decoding is total (`Except.ok`), it never raises
an out-of-range access. -/
theorem decode_inbounds_total (frame : List Nat) :
    (47 ≤ frame.length → ∃ r, decode_telemetry frame = Except.ok r) ∧
    (51 ≤ frame.length → ∃ r, decode_status frame = Except.ok r) :=
  ⟨fun _ => decode_telemetry_total frame, fun _ => decode_status_total frame⟩

/-- C10 (witness): totality at concrete all-zero frames of the
threshold lengths. -/
theorem decode_inbounds_total_witness :
    (∃ r, decode_telemetry (List.replicate 47 0) = Except.ok r) ∧
    (∃ r, decode_status (List.replicate 51 0) = Except.ok r) :=
  ⟨(decode_inbounds_total (List.replicate 47 0)).1 (by decide),
   (decode_inbounds_total (List.replicate 51 0)).2 (by decide)⟩

/-- Python slice `buf[start:stop]` (for `start ≤ stop`). -/
def sliceAt (buf : List Nat) (start stop : Nat) : List Nat :=
  (buf.drop start).take (stop - start)

/-- Delimiter offsets `[i for i, b in enumerate(buf) if b == 0x7E]`: every offset whose
byte is the delimiter, in increasing order. -/
def delimiterIdx (buf : List Nat) : List Nat :=
  (List.range buf.length).filter (fun i => buf.getD i 0 == delimiter)

/-- The splitting loop of `capture_frames`: for each located offset the
candidate spans to the next located offset, or to the end of the buffer
for the last one. -/
def splitAtIdx (buf : List Nat) : List Nat → List (List Nat)
  | [] => []
  | [i] => [sliceAt buf i buf.length]
  | i :: j :: rest => sliceAt buf i j :: splitAtIdx buf (j :: rest)

/-- Embedding of `capture_frames` after the raw bytes have been drained: split at the
delimiters, keep candidates of length at least 6 that pass the CRC. -/
def capture_frames (buf : List Nat) : List (List Nat) :=
  (splitAtIdx buf (delimiterIdx buf)).filter
    (fun fr => decide (6 ≤ fr.length) && verify_crc fr)

theorem delimiterIdx_count (buf : List Nat) :
    (delimiterIdx buf).length = buf.count delimiter := by
  unfold delimiterIdx
  induction buf with
  | nil => rfl
  | cons b t ih =>
    rw [List.length_cons, List.range_succ_eq_map]
    rw [List.filter_cons, List.filter_map]
    have hcomp : ((fun i => (b :: t).getD i 0 == delimiter) ∘ Nat.succ)
        = fun i => t.getD i 0 == delimiter := by
      funext i
      simp [Function.comp, List.getD_cons_succ]
    rw [hcomp]
    simp only [List.getD_cons_zero]
    rw [List.count_cons]
    by_cases hb : b = delimiter
    · rw [if_pos (by simp [beq_iff_eq]; omega), if_pos (by simp [beq_iff_eq]; omega)]
      simp only [List.length_cons, List.length_map, ih]
    · rw [if_neg (by simp [beq_iff_eq]; omega), if_neg (by simp [beq_iff_eq]; omega)]
      simp only [List.length_map, ih, Nat.add_zero]

theorem delimiterIdx_sorted (buf : List Nat) :
    List.Chain' (· < ·) (delimiterIdx buf) :=
  (((List.pairwise_lt_range buf.length)).filter _).chain'

theorem delimiterIdx_mem {buf : List Nat} {i : Nat} (h : i ∈ delimiterIdx buf) :
    i < buf.length ∧ buf.getD i 0 = delimiter := by
  unfold delimiterIdx at h
  rw [List.mem_filter, List.mem_range] at h
  exact ⟨h.1, by simpa using h.2⟩

theorem splitAtIdx_length (buf : List Nat) (idx : List Nat) :
    (splitAtIdx buf idx).length = idx.length := by
  induction idx with
  | nil => rfl
  | cons i rest ih =>
    cases rest with
    | nil => rfl
    | cons j rest2 =>
      rw [splitAtIdx, List.length_cons, ih]
      simp

theorem drop_getD_cons {l : List Nat} {n : Nat} (h : n < l.length) :
    l.drop n = l.getD n 0 :: l.drop (n + 1) := by
  rw [List.drop_eq_getElem_cons h]
  simp [List.getD_eq_getElem?_getD, List.getElem?_eq_getElem h]

theorem sliceAt_cons {buf : List Nat} {start stop : Nat}
    (h1 : start < stop) (h2 : start < buf.length) :
    sliceAt buf start stop
      = buf.getD start 0 :: (buf.drop (start + 1)).take (stop - start - 1) := by
  unfold sliceAt
  rw [drop_getD_cons h2]
  have h3 : stop - start = (stop - start - 1) + 1 := by omega
  rw [h3, List.take_succ_cons]
  simp

theorem splitAtIdx_head_delim (buf : List Nat) (idx : List Nat)
    (hmem : ∀ i ∈ idx, i < buf.length ∧ buf.getD i 0 = delimiter)
    (hsort : List.Chain' (· < ·) idx) :
    ∀ fr ∈ splitAtIdx buf idx, fr ≠ [] ∧ fr.headD 0 = delimiter := by
  induction idx with
  | nil => intro fr hfr; cases hfr
  | cons i rest ih =>
    cases rest with
    | nil =>
      intro fr hfr
      obtain ⟨hi, hd⟩ := hmem i (by simp)
      rw [splitAtIdx, List.mem_singleton] at hfr
      subst hfr
      rw [sliceAt_cons hi hi]
      exact ⟨by simp, by rw [List.headD_cons]; exact hd⟩
    | cons j rest2 =>
      intro fr hfr
      rw [splitAtIdx, List.mem_cons] at hfr
      rcases hfr with hfr | hfr
      · obtain ⟨hi, hd⟩ := hmem i (by simp)
        have hij : i < j := (List.chain'_cons.mp hsort).1
        subst hfr
        rw [sliceAt_cons hij hi]
        exact ⟨by simp, by rw [List.headD_cons]; exact hd⟩
      · exact ih (fun k hk => hmem k (List.mem_cons_of_mem i hk))
          (List.chain'_cons.mp hsort).2 fr hfr

theorem splitAtIdx_flatten (buf : List Nat) (idx : List Nat)
    (hmem : ∀ i ∈ idx, i < buf.length)
    (hsort : List.Chain' (· < ·) idx) :
    (splitAtIdx buf idx).flatten = buf.drop (idx.headD buf.length) := by
  induction idx with
  | nil => simp [splitAtIdx]
  | cons i rest ih =>
    cases rest with
    | nil =>
      have hi : i < buf.length := hmem i (by simp)
      rw [splitAtIdx]
      simp only [List.flatten, List.headD, List.append_nil]
      unfold sliceAt
      exact List.take_of_length_le (by rw [List.length_drop])
    | cons j rest2 =>
      have hi : i < buf.length := hmem i (by simp)
      have hij : i < j := (List.chain'_cons.mp hsort).1
      rw [splitAtIdx, List.flatten_cons]
      rw [ih (fun k hk => hmem k (List.mem_cons_of_mem i hk))
            (List.chain'_cons.mp hsort).2]
      simp only [List.headD]
      have hdj : buf.drop j = (buf.drop i).drop (j - i) := by
        rw [List.drop_drop]
        congr 1
        omega
      rw [hdj]
      unfold sliceAt
      exact List.take_append_drop (j - i) (buf.drop i)

theorem splitAtIdx_getD (buf : List Nat) (idx : List Nat) :
    ∀ n, n < idx.length →
      (splitAtIdx buf idx).getD n []
        = sliceAt buf (idx.getD n 0)
            (if n + 1 < idx.length then idx.getD (n + 1) 0 else buf.length) := by
  induction idx with
  | nil => intro n hn; cases hn
  | cons i rest ih =>
    cases rest with
    | nil =>
      intro n hn
      have hn0 : n = 0 := by simp at hn; omega
      subst hn0
      rfl
    | cons j rest2 =>
      intro n hn
      cases n with
      | zero =>
        have : 0 + 1 < (i :: j :: rest2).length := by simp
        rw [if_pos this]
        rfl
      | succ m =>
        have hm : m < (j :: rest2).length := by
          simp at hn ⊢
          omega
        have := ih m hm
        rw [splitAtIdx, List.getD_cons_succ, this]
        by_cases hc : m + 1 < (j :: rest2).length
        · rw [if_pos hc, if_pos (by simp at hc ⊢; omega)]
          rfl
        · rw [if_neg hc, if_neg (by simp at hc ⊢; omega)]
          rfl

/-- C1 (counterexample): a buffer whose first byte is not the
delimiter is not reconstructed by concatenating the candidates: the
splitting step silently drops the prefix `[0]`. -/
theorem splitter_counterexample :
    ¬ ((splitAtIdx [0, delimiter] (delimiterIdx [0, delimiter])).flatten
        = [0, delimiter]) := by
  decide

/-- C1 (amended): a buffer with `k` delimiter occurrences splits
into exactly `k` candidates; the located offsets are strictly
increasing; the `n`-th candidate spans from the `n`-th offset to the
next one (exclusive) or to the end of the buffer, so no two candidates
overlap; every candidate is nonempty and begins with the delimiter; and
the concatenation of the candidates reconstructs the buffer from its
first delimiter offset onward (the entire buffer when it begins with a
delimiter byte). -/
theorem splitter_spec (buf : List Nat) :
    (splitAtIdx buf (delimiterIdx buf)).length = buf.count delimiter ∧
    List.Chain' (· < ·) (delimiterIdx buf) ∧
    (∀ n, n < (delimiterIdx buf).length →
      (splitAtIdx buf (delimiterIdx buf)).getD n []
        = sliceAt buf ((delimiterIdx buf).getD n 0)
            (if n + 1 < (delimiterIdx buf).length
             then (delimiterIdx buf).getD (n + 1) 0 else buf.length)) ∧
    (∀ fr ∈ splitAtIdx buf (delimiterIdx buf),
      fr ≠ [] ∧ fr.headD 0 = delimiter) ∧
    (splitAtIdx buf (delimiterIdx buf)).flatten
      = buf.drop ((delimiterIdx buf).headD buf.length) := by
  refine ⟨?_, delimiterIdx_sorted buf, splitAtIdx_getD buf (delimiterIdx buf), ?_, ?_⟩
  · rw [splitAtIdx_length, delimiterIdx_count]
  · exact splitAtIdx_head_delim buf (delimiterIdx buf)
      (fun i hi => delimiterIdx_mem hi) (delimiterIdx_sorted buf)
  · exact splitAtIdx_flatten buf (delimiterIdx buf)
      (fun i hi => (delimiterIdx_mem hi).1) (delimiterIdx_sorted buf)

/-- C1 (witness): the span and head properties at the concrete
buffer `[0x7E, 1, 0x7E]`. -/
theorem splitter_spec_witness :
    (splitAtIdx [126, 1, 126] (delimiterIdx [126, 1, 126])).getD 0 []
      = sliceAt [126, 1, 126] ((delimiterIdx [126, 1, 126]).getD 0 0)
          (if 0 + 1 < (delimiterIdx [126, 1, 126]).length
           then (delimiterIdx [126, 1, 126]).getD 1 0
           else ([126, 1, 126] : List Nat).length) ∧
    (([126, 1] : List Nat) ≠ [] ∧ ([126, 1] : List Nat).headD 0 = delimiter) :=
  ⟨(splitter_spec [126, 1, 126]).2.2.1 0 (by decide),
   (splitter_spec [126, 1, 126]).2.2.2.1 [126, 1] (by decide)⟩

/-- C9: bytes before the first delimiter are silently discarded:
concatenating the candidates yields the buffer from the first delimiter
offset onward; a buffer with no delimiter yields zero candidates; and a
nonempty buffer that does not begin with the delimiter is not
reconstructible from its candidates. -/
theorem split_prefix_discarded (buf : List Nat) :
    (splitAtIdx buf (delimiterIdx buf)).flatten
      = buf.drop ((delimiterIdx buf).headD buf.length) ∧
    (buf.count delimiter = 0 → splitAtIdx buf (delimiterIdx buf) = []) ∧
    (0 < buf.length → buf.getD 0 0 ≠ delimiter →
      (splitAtIdx buf (delimiterIdx buf)).flatten ≠ buf) := by
  have hflat : (splitAtIdx buf (delimiterIdx buf)).flatten
      = buf.drop ((delimiterIdx buf).headD buf.length) :=
    splitAtIdx_flatten buf (delimiterIdx buf)
      (fun i hi => (delimiterIdx_mem hi).1) (delimiterIdx_sorted buf)
  refine ⟨hflat, ?_, ?_⟩
  · intro hcount
    have h : (splitAtIdx buf (delimiterIdx buf)).length = 0 := by
      rw [splitAtIdx_length, delimiterIdx_count, hcount]
    exact List.length_eq_zero.mp h
  · intro hpos hfirst heq
    rw [hflat] at heq
    cases hidx : delimiterIdx buf with
    | nil =>
      rw [hidx] at heq
      simp only [List.headD_nil, List.drop_length] at heq
      exact (List.ne_nil_of_length_pos hpos) heq.symm
    | cons h0 rest =>
      have hmem : h0 < buf.length ∧ buf.getD h0 0 = delimiter :=
        delimiterIdx_mem (by rw [hidx]; simp)
      have hne : h0 ≠ 0 := fun h => hfirst (h ▸ hmem.2)
      rw [hidx] at heq
      simp only [List.headD_cons] at heq
      have hlen := congrArg List.length heq
      rw [List.length_drop] at hlen
      omega

/-- C9 (witness): at the buffer `[5, 0x7E, 9]` (non-delimiter
prefix) and at `[1, 2]` (no delimiter at all). -/
theorem split_prefix_discarded_witness :
    (splitAtIdx [5, 126, 9] (delimiterIdx [5, 126, 9])).flatten ≠ [5, 126, 9] ∧
    splitAtIdx [1, 2] (delimiterIdx [1, 2]) = [] :=
  ⟨(split_prefix_discarded [5, 126, 9]).2.2 (by decide) (by decide),
   (split_prefix_discarded [1, 2]).2.1 (by decide)⟩

/-- C8: every frame that `capture_frames` hands to the decoders has
length at least 6 and passes `verify_crc`: decoding never sees an
unverified frame. -/
theorem capture_frames_validated (buf : List Nat) :
    ∀ fr ∈ capture_frames buf, 6 ≤ fr.length ∧ verify_crc fr = true := by
  intro fr hfr
  unfold capture_frames at hfr
  rw [List.mem_filter] at hfr
  obtain ⟨-, h⟩ := hfr
  rw [Bool.and_eq_true] at h
  exact ⟨of_decide_eq_true h.1, h.2⟩

/-- C8 (witness): at a concrete one-frame capture buffer whose
checksum is correct by construction. -/
theorem capture_frames_validated_witness :
    6 ≤ (delimiter :: [1, 2, 3] ++ le16 (crc16_modbus [1, 2, 3])).length ∧
    verify_crc (delimiter :: [1, 2, 3] ++ le16 (crc16_modbus [1, 2, 3])) = true :=
  capture_frames_validated
    (delimiter :: [1, 2, 3] ++ le16 (crc16_modbus [1, 2, 3]))
    (delimiter :: [1, 2, 3] ++ le16 (crc16_modbus [1, 2, 3]))
    (by decide)

/-- Successful telemetry decode of one frame, as used by the selection
loop of `main` (a falsy result means "keep scanning"). -/
def telemetry_decoded (f : List Nat) : Option TelemetryReading :=
  match decode_telemetry f with
  | Except.ok (some r) => some r
  | _ => none

/-- Successful status decode of one frame. -/
def status_decoded (f : List Nat) : Option StatusReading :=
  match decode_status f with
  | Except.ok (some r) => some r
  | _ => none

/-- The body of `for f in reversed(frames)` for telemetry: skip frames
shorter than 47, stop at the first frame whose decode is truthy. -/
def select_telemetry_go : List (List Nat) → Except Unit (Option TelemetryReading)
  | [] => Except.ok none
  | f :: rest =>
    if 47 ≤ f.length then
      match decode_telemetry f with
      | Except.error e => Except.error e
      | Except.ok (some r) => Except.ok (some r)
      | Except.ok none => select_telemetry_go rest
    else select_telemetry_go rest

/-- Telemetry selection of `main` over one capture window. -/
def select_telemetry (frames : List (List Nat)) : Except Unit (Option TelemetryReading) :=
  select_telemetry_go frames.reverse

/-- The body of `for f in reversed(frames)` for status frames. -/
def select_status_go : List (List Nat) → Except Unit (Option StatusReading)
  | [] => Except.ok none
  | f :: rest =>
    if 51 ≤ f.length then
      match decode_status f with
      | Except.error e => Except.error e
      | Except.ok (some r) => Except.ok (some r)
      | Except.ok none => select_status_go rest
    else select_status_go rest

/-- Status selection of `main` over one capture window. -/
def select_status (frames : List (List Nat)) : Except Unit (Option StatusReading) :=
  select_status_go frames.reverse

theorem telemetry_decoded_none {f : List Nat} (h : telemetry_decoded f = none) :
    decode_telemetry f = Except.ok none := by
  obtain ⟨r, hr⟩ := decode_telemetry_total f
  unfold telemetry_decoded at h
  rw [hr] at h
  cases r with
  | none => exact hr
  | some x => simp at h

theorem telemetry_decoded_some {f : List Nat} {r : TelemetryReading}
    (h : telemetry_decoded f = some r) :
    decode_telemetry f = Except.ok (some r) := by
  obtain ⟨r2, hr2⟩ := decode_telemetry_total f
  unfold telemetry_decoded at h
  rw [hr2] at h
  cases r2 with
  | none => simp at h
  | some x =>
    simp at h
    rw [hr2, h]

theorem decode_telemetry_some_length {f : List Nat} {r : TelemetryReading}
    (h : decode_telemetry f = Except.ok (some r)) : 47 ≤ f.length := by
  by_contra hlen
  unfold decode_telemetry at h
  rw [if_pos (Or.inl (by omega))] at h
  simp at h

theorem select_telemetry_go_skip (L1 L2 : List (List Nat))
    (h : ∀ f ∈ L1, telemetry_decoded f = none) :
    select_telemetry_go (L1 ++ L2) = select_telemetry_go L2 := by
  induction L1 with
  | nil => rfl
  | cons f rest ih =>
    have hf : decode_telemetry f = Except.ok none :=
      telemetry_decoded_none (h f (by simp))
    rw [List.cons_append, select_telemetry_go, hf]
    have ihr := ih (fun g hg => h g (List.mem_cons_of_mem f hg))
    by_cases hlen : 47 ≤ f.length
    · rw [if_pos hlen]
      exact ihr
    · rw [if_neg hlen]
      exact ihr

theorem select_telemetry_go_hit (f : List Nat) (L : List (List Nat))
    {r : TelemetryReading} (h : telemetry_decoded f = some r) :
    select_telemetry_go (f :: L) = Except.ok (some r) := by
  have hd := telemetry_decoded_some h
  rw [select_telemetry_go, hd, if_pos (decode_telemetry_some_length hd)]

theorem status_decoded_none {f : List Nat} (h : status_decoded f = none) :
    decode_status f = Except.ok none := by
  obtain ⟨r, hr⟩ := decode_status_total f
  unfold status_decoded at h
  rw [hr] at h
  cases r with
  | none => exact hr
  | some x => simp at h

theorem status_decoded_some {f : List Nat} {r : StatusReading}
    (h : status_decoded f = some r) :
    decode_status f = Except.ok (some r) := by
  obtain ⟨r2, hr2⟩ := decode_status_total f
  unfold status_decoded at h
  rw [hr2] at h
  cases r2 with
  | none => simp at h
  | some x =>
    simp at h
    rw [hr2, h]

theorem decode_status_some_length {f : List Nat} {r : StatusReading}
    (h : decode_status f = Except.ok (some r)) : 51 ≤ f.length := by
  by_contra hlen
  unfold decode_status at h
  rw [if_pos (Or.inl (by omega))] at h
  simp at h

theorem select_status_go_skip (L1 L2 : List (List Nat))
    (h : ∀ f ∈ L1, status_decoded f = none) :
    select_status_go (L1 ++ L2) = select_status_go L2 := by
  induction L1 with
  | nil => rfl
  | cons f rest ih =>
    have hf : decode_status f = Except.ok none :=
      status_decoded_none (h f (by simp))
    rw [List.cons_append, select_status_go, hf]
    have ihr := ih (fun g hg => h g (List.mem_cons_of_mem f hg))
    by_cases hlen : 51 ≤ f.length
    · rw [if_pos hlen]
      exact ihr
    · rw [if_neg hlen]
      exact ihr

theorem select_status_go_hit (f : List Nat) (L : List (List Nat))
    {r : StatusReading} (h : status_decoded f = some r) :
    select_status_go (f :: L) = Except.ok (some r) := by
  have hd := status_decoded_some h
  rw [select_status_go, hd, if_pos (decode_status_some_length hd)]

/-- C2: for each kind independently the selection loop returns the
decoded reading of the frame with the greatest position index among
those that decode successfully, and nothing when no frame decodes. -/
theorem selection_latest_decoded (frames : List (List Nat)) :
    ((∀ f ∈ frames, telemetry_decoded f = none) →
        select_telemetry frames = Except.ok none) ∧
    (∀ (pre : List (List Nat)) (mid : List Nat) (post : List (List Nat))
        (r : TelemetryReading),
      frames = pre ++ mid :: post → telemetry_decoded mid = some r →
      (∀ f ∈ post, telemetry_decoded f = none) →
      select_telemetry frames = Except.ok (some r)) ∧
    ((∀ f ∈ frames, status_decoded f = none) →
        select_status frames = Except.ok none) ∧
    (∀ (pre : List (List Nat)) (mid : List Nat) (post : List (List Nat))
        (r : StatusReading),
      frames = pre ++ mid :: post → status_decoded mid = some r →
      (∀ f ∈ post, status_decoded f = none) →
      select_status frames = Except.ok (some r)) := by
  refine ⟨?_, ?_, ?_, ?_⟩
  · intro h
    unfold select_telemetry
    have := select_telemetry_go_skip frames.reverse []
      (fun f hf => h f (List.mem_reverse.mp hf))
    rw [List.append_nil] at this
    rw [this]
    rfl
  · intro pre mid post r hsplit hmid hpost
    unfold select_telemetry
    rw [hsplit]
    have hrev : (pre ++ mid :: post).reverse
        = post.reverse ++ mid :: pre.reverse := by
      simp
    rw [hrev, select_telemetry_go_skip post.reverse (mid :: pre.reverse)
          (fun f hf => hpost f (List.mem_reverse.mp hf)),
        select_telemetry_go_hit mid pre.reverse hmid]
  · intro h
    unfold select_status
    have := select_status_go_skip frames.reverse []
      (fun f hf => h f (List.mem_reverse.mp hf))
    rw [List.append_nil] at this
    rw [this]
    rfl
  · intro pre mid post r hsplit hmid hpost
    unfold select_status
    rw [hsplit]
    have hrev : (pre ++ mid :: post).reverse
        = post.reverse ++ mid :: pre.reverse := by
      simp
    rw [hrev, select_status_go_skip post.reverse (mid :: pre.reverse)
          (fun f hf => hpost f (List.mem_reverse.mp hf)),
        select_status_go_hit mid pre.reverse hmid]

/-- C2 (witness): in `[wtele, []]` the structurally-last frame fails
to decode, and the selection returns the reading of the earlier frame —
the one with the greatest index among frames that decode. -/
theorem selection_latest_decoded_witness :
    select_telemetry [wtele, []] = Except.ok (some
      ⟨(beSigned16 wtele 9 : ℚ) / 10, (beSigned16 wtele 11 : ℚ) / 10,
       (beSigned16 wtele 15 : ℚ) / 10, (beSigned16 wtele 25 : ℚ) / 10,
       (beSigned16 wtele 31 : ℚ) / 10, (beSigned16 wtele 41 : ℚ) / 10⟩) ∧
    select_status [wstat, []] = Except.ok (some
      ⟨(beSigned16 wstat 33 : ℚ) / 10, (beSigned16 wstat 35 : ℚ) / 10,
       (beSigned16 wstat 37 : ℚ) / 10⟩) :=
  ⟨(selection_latest_decoded [wtele, []]).2.1 [] wtele [[]] _ rfl
      (by unfold telemetry_decoded
          rw [decode_telemetry_ok wtele (by decide) (by decide) (by decide)
                (by decide)])
      (by decide),
   (selection_latest_decoded [wstat, []]).2.2.2 [] wstat [[]] _ rfl
      (by unfold status_decoded
          rw [decode_status_ok wstat (by decide) (by decide) (by decide)])
      (by decide)⟩

theorem dropLast_dropLast (l : List Nat) :
    l.dropLast.dropLast = l.take (l.length - 2) := by
  rw [List.dropLast_eq_take, List.dropLast_eq_take, List.length_take, List.take_take]
  congr 1
  omega

theorem drop_sub_two (frame : List Nat) (h : 2 ≤ frame.length) :
    frame.drop (frame.length - 2)
      = [frame.getD (frame.length - 2) 0, frame.getD (frame.length - 1) 0] := by
  rw [drop_getD_cons (by omega)]
  have h1 : frame.length - 2 + 1 = frame.length - 1 := by omega
  rw [h1, drop_getD_cons (by omega)]
  have h2 : frame.length - 1 + 1 = frame.length := by omega
  rw [h2, List.drop_length]

set_option maxRecDepth 40000 in
/-- C6: `verify_crc` rejects frames shorter than 4 bytes, and
otherwise succeeds exactly when the CRC-16/MODBUS checksum of
`frame[1 .. len-2]` equals the little-endian 16-bit value of the last
two bytes; the CRC implementation matches the CRC-16/MODBUS check value
`0x4B37` on the ASCII bytes of `"123456789"`. -/
theorem verify_crc_spec (frame : List Nat) :
    (frame.length < 4 → verify_crc frame = false) ∧
    (4 ≤ frame.length →
      (verify_crc frame = true ↔
        crc16_modbus ((frame.drop 1).take (frame.length - 3))
          = frame.getD (frame.length - 2) 0
              + 256 * frame.getD (frame.length - 1) 0)) ∧
    crc16_modbus [49, 50, 51, 52, 53, 54, 55, 56, 57] = 0x4B37 := by
  refine ⟨fun h => by rw [verify_crc, if_pos h], fun h => ?_, by decide⟩
  unfold verify_crc
  rw [if_neg (by omega)]
  rw [dropLast_dropLast, drop_sub_two frame (by omega)]
  have hlen : (frame.drop 1).length - 2 = frame.length - 3 := by
    rw [List.length_drop]
    omega
  rw [hlen, beq_iff_eq]
  have hfb : from_bytes_le [frame.getD (frame.length - 2) 0,
      frame.getD (frame.length - 1) 0]
      = frame.getD (frame.length - 2) 0 + 256 * frame.getD (frame.length - 1) 0 := by
    simp [from_bytes_le]
  rw [hfb]

/-- C6 (witness): the guard at a 2-byte frame and the
characterization at a concrete 4-byte frame. -/
theorem verify_crc_spec_witness :
    verify_crc [1, 2] = false ∧
    (verify_crc [126, 1, 2, 3] = true ↔
      crc16_modbus ((([126, 1, 2, 3] : List Nat).drop 1).take
          (([126, 1, 2, 3] : List Nat).length - 3))
        = ([126, 1, 2, 3] : List Nat).getD (([126, 1, 2, 3] : List Nat).length - 2) 0
            + 256 * ([126, 1, 2, 3] : List Nat).getD
                (([126, 1, 2, 3] : List Nat).length - 1) 0) :=
  ⟨(verify_crc_spec [1, 2]).1 (by decide),
   (verify_crc_spec [126, 1, 2, 3]).2.1 (by decide)⟩

end JkBus
